import Mathlib

/-!
Verification of the ReopAPI repository core: company-name-to-CIK resolution
(src/cik_resolver.py, src/app/api/cik_resolver.py), SEC filing location and
URL resolution (src/SECAPI.py, src/utils.py), and 10-Q section/table
extraction (src/app/api/agents/agent1_fetch_sec.py,
src/app/api/agents/agent2_analyze_financials.py).

Python strings are modelled as Lean `String`, dictionaries as association
lists with replace-on-insert semantics (preserving Python dict key order),
network calls as explicit oracle arguments, and exceptions as `Option` or
`Except` results.
-/

/-! ### Python string primitives -/

/-- Characters treated as whitespace by default Python `str.strip()`. -/
def pyWhite (c : Char) : Bool :=
  c = ' ' || c = '\t' || c = '\n' || c = '\r' || c = '\x0b' || c = '\x0c'

/-- Python `str.strip()` on a character list: drop whitespace on both ends. -/
def stripChars (l : List Char) : List Char :=
  ((l.dropWhile pyWhite).reverse.dropWhile pyWhite).reverse

/-- Python `str.strip()`. -/
def pyStrip (s : String) : String := String.mk (stripChars s.data)

/-- Python `str.lower()` (ASCII range, as used on ticker/company strings). -/
def lowerStr (s : String) : String := String.mk (s.data.map Char.toLower)

/-- Python `str.zfill(w)`: left-pad with zeros to width `w`, keeping a
leading sign character in front of the padding. -/
def pyZfill (s : String) (w : Nat) : String :=
  if w ≤ s.data.length then s
  else
    let pad := List.replicate (w - s.data.length) '0'
    match s.data with
    | c :: rest => if c = '+' ∨ c = '-' then String.mk (c :: (pad ++ rest))
                   else String.mk (pad ++ s.data)
    | [] => String.mk pad

/-- Python `str.endswith(pat)`. -/
def pyEndsWith (s pat : String) : Bool := pat.data.isSuffixOf s.data

/-- Python `sep.join(parts)`. -/
def joinSep (sep : String) : List String → String
  | [] => ""
  | [x] => x
  | x :: xs => x ++ sep ++ joinSep sep xs

/-- Python decimal digit test as used by `str.isdigit()` on ASCII data. -/
def isDigitChar (c : Char) : Bool := '0' ≤ c && c ≤ '9'

/-- Python `str.isdigit()` (ASCII digits; nonempty). -/
def pyIsDigit (s : String) : Bool := !s.data.isEmpty && s.data.all isDigitChar

/-- Numeric value of an ASCII digit string, most significant first. -/
def natOfDigits (l : List Char) : Nat :=
  l.foldl (fun acc c => 10 * acc + (c.toNat - '0'.toNat)) 0

/-! ### Python dictionaries as association lists -/

/-- Dictionary lookup. -/
def alookup {α : Type} : List (String × α) → String → Option α
  | [], _ => none
  | (k, v) :: t, key => if k = key then some v else alookup t key

/-- Dictionary insert: replace in place if the key exists (keeping its
position, as Python dicts do), otherwise append at the end. -/
def ainsert {α : Type} : List (String × α) → String → α → List (String × α)
  | [], key, v => [(key, v)]
  | (k, w) :: t, key, v =>
    if k = key then (key, v) :: t else (k, w) :: ainsert t key v

/-! ### A sort that models Python list.sort(reverse=True)

Python sorts tuples in ascending lexicographic order; with reverse=True the
result is descending.  The elements sorted in this development are tuples of
distinct values, so any stable comparison sort agrees with Python; we use a
structurally recursive insertion sort so that concrete instances reduce. -/

/-- Insert `a` in front of the first element it is `le`-related to. -/
def orderedInsertBy {α : Type} (le : α → α → Bool) (a : α) : List α → List α
  | [] => [a]
  | b :: l => if le a b then a :: b :: l else b :: orderedInsertBy le a l

/-- Insertion sort with respect to a boolean comparison. -/
def sortByB {α : Type} (le : α → α → Bool) : List α → List α
  | [] => []
  | a :: l => orderedInsertBy le a (sortByB le l)

/-! ### src/cik_resolver.py : module state and loaders -/

/-- One value of the SEC company_tickers.json dictionary, as consumed by
`load_company_tickers_json` (`cik_str`, `ticker`, `title`). -/
structure RawTicker where
  cikStr : String
  ticker : String
  title : String
deriving DecidableEq, Repr

/-- One entry of the in-memory `CIK_CACHE` (`cik`, `title`). -/
structure CikEntry where
  cik : String
  title : String
deriving DecidableEq, Repr

/-- The hard-coded initial `ALIAS_MAP` of src/cik_resolver.py. -/
def initialAliasMap : List (String × String) :=
  [("meta", "Meta Platforms, Inc."),
   ("goog", "Alphabet Inc."),
   ("google", "Alphabet Inc."),
   ("fb", "Meta Platforms, Inc."),
   ("rh", "RH"),
   ("cent", "Central Garden & Pet Company"),
   ("ball", "Ball Corporation")]

/-- `PROTECTED_ALIASES` of src/cik_resolver.py. -/
def protectedAliases : List String := ["meta", "facebook", "google", "alphabet", "fb"]

/-- `ALIAS_TTL = 60 * 60 * 24 * 7` seconds. -/
def aliasTtl : Nat := 60 * 60 * 24 * 7

/-- `load_company_tickers_json` (src/cik_resolver.py lines 40-50), applied to
the decoded JSON values: builds the ticker-keyed cache, zero-filling each
`cik_str` to width 10 and lowercasing the ticker. -/
def load_company_tickers_json (vals : List RawTicker) : List (String × CikEntry) :=
  vals.foldl (fun acc v => ainsert acc (lowerStr v.ticker) ⟨pyZfill v.cikStr 10, v.title⟩) []

/-- The mutable alias-learning state of src/cik_resolver.py:
`NEW_ALIASES` and `ALIAS_TIMESTAMP`. -/
structure ResolverState where
  newAliases : List (String × String)
  aliasStamps : List (String × Nat)
deriving DecidableEq, Repr

/-- `record_alias` (src/cik_resolver.py lines 135-143).  `now` is the value
of `time.time()` in whole seconds.  Adds the lowercased input as a pending
alias unless the key is protected, or is already in `ALIAS_MAP` with no
stale recorded proposal. -/
def record_alias (now : Nat) (aliasMap : List (String × String))
    (userInput resolvedName : String) (st : ResolverState) : ResolverState :=
  let aliasKey := lowerStr userInput
  if aliasKey ∈ protectedAliases then st
  else if (alookup aliasMap aliasKey).isNone ||
      (match alookup st.aliasStamps aliasKey with
       | some t => decide (aliasTtl < now - t)
       | none => false) then
    ⟨ainsert st.newAliases aliasKey resolvedName, ainsert st.aliasStamps aliasKey now⟩
  else st

/-- The corporate-suffix words of the regex
`(,?\s+(Inc|Corp|Corporation|LLC|Ltd)\.?)$` in src/cik_resolver.py line 159,
stored reversed and lowercased for matching from the end of the string. -/
def corpSuffixWordsRev : List (List Char) :=
  [("inc".data).reverse, ("corporation".data).reverse, ("corp".data).reverse,
   ("llc".data).reverse, ("ltd".data).reverse]

/-- Match the reversed tail of a name against one reversed suffix word
followed (in the original string) by at least one whitespace character and
an optional comma; returns the remaining reversed characters. -/
def dropCorpWordRev (rev : List Char) : Option (List Char) :=
  (corpSuffixWordsRev.filterMap (fun w =>
    let lowRev := rev.map Char.toLower
    if w.isPrefixOf lowRev then
      let rest := rev.drop w.length
      let restWs := rest.dropWhile pyWhite
      if restWs.length < rest.length then
        some (match restWs with
              | ',' :: r => r
              | r => r)
      else none
    else none)).head?

/-- `re.sub` with pattern `(,?\s+(Inc|Corp|Corporation|LLC|Ltd)\.?)$` and
case-insensitive matching (src/cik_resolver.py line 159): strip one trailing
corporate suffix (with optional trailing period and optional comma). -/
def stripCorpTail (s : String) : String :=
  let rev := s.data.reverse
  let rev' := match rev with
              | '.' :: r => (dropCorpWordRev r).getD rev
              | r => (dropCorpWordRev r).getD rev
  String.mk rev'.reverse

/-- `cleaned.replace(" ", "+")` (src/cik_resolver.py line 160). -/
def plusJoin (s : String) : String :=
  String.mk (s.data.map (fun c => if c = ' ' then '+' else c))

/-- `resolve_cik` (src/cik_resolver.py lines 146-174).  `cikCache` and
`aliasMap` are the module-level `CIK_CACHE` and `ALIAS_MAP`; `scrape q`
models the EDGAR company-search request for query string `q`, returning the
text of the first all-digit anchor on a 200 response and `none` on any
failure, non-200 status, or missing anchor.  Returns the `(cik?, name)`
pair together with the updated alias-learning state. -/
def resolve_cik (now : Nat) (cikCache : List (String × CikEntry))
    (aliasMap : List (String × String)) (scrape : String → Option String)
    (companyName : String) (st : ResolverState) :
    (Option String × String) × ResolverState :=
  let nameKey := pyStrip (lowerStr companyName)
  let resolvedName := (alookup aliasMap nameKey).getD companyName
  match alookup cikCache nameKey with
  | some e => ((some e.cik, e.title), record_alias now aliasMap companyName e.title st)
  | none =>
    match cikCache.find? (fun p => lowerStr p.2.title = nameKey) with
    | some p => ((some p.2.cik, p.2.title), record_alias now aliasMap companyName p.2.title st)
    | none =>
      let query := plusJoin (stripCorpTail resolvedName)
      match scrape query with
      | some txt =>
        ((some (pyZfill (pyStrip txt) 10), resolvedName),
         record_alias now aliasMap companyName resolvedName st)
      | none => ((none, resolvedName), st)

/-! ### src/app/api/cik_resolver.py : alias map loading and resolution -/

/-- `_normalize_key` (src/app/api/cik_resolver.py lines 57-59):
`key.lower().strip()`. -/
def normalize_key (key : String) : String := pyStrip (lowerStr key)

/-- Outcome of the GitHub raw-content request inside `load_alias_map`:
a 200 response with decoded JSON pairs, a non-200 status, or a raised
exception. -/
inductive RemoteFetch where
  | ok (pairs : List (String × String))
  | httpFail
  | exn
deriving DecidableEq, Repr

/-- Outcome of reading the local `alias_map.json` inside `load_alias_map`:
the file is absent, present but failing to read or decode (raises), or
present with decoded JSON pairs. -/
inductive LocalFileRead where
  | absent
  | bad
  | good (pairs : List (String × String))
deriving DecidableEq, Repr

/-- Key normalization applied on ingestion by `load_alias_map`:
each key goes through `_normalize_key`. -/
def normIngest (pairs : List (String × String)) : List (String × String) :=
  pairs.map (fun p => (normalize_key p.1, p.2))

/-- `load_alias_map` (src/app/api/cik_resolver.py lines 88-144).  `cache` is
the module-level `_alias_map`, `cacheFresh` whether the TTL on
`_last_load_time` has not expired.  Returns the loaded mapping, or an error
modelling the `raise ResolutionError` path taken when an exception was
recorded and no tier succeeded. -/
def load_alias_map (cache : List (String × String)) (cacheFresh forceReload : Bool)
    (remote : RemoteFetch) (localFile : LocalFileRead) :
    Except String (List (String × String)) :=
  if cache ≠ [] ∧ forceReload = false ∧ cacheFresh = true then .ok cache
  else
    match remote with
    | .ok pairs => .ok (normIngest pairs)
    | r =>
      match localFile with
      | .good pairs => .ok (normIngest pairs)
      | .bad => .error "Failed to load alias map"
      | .absent =>
        if r = .exn then .error "Failed to load alias map"
        else .ok []

/-- One value of the SEC company_tickers.json dictionary as consumed by
`resolve_company_name` via `_fetch_sec_data`. -/
structure SecEntry where
  cikStr : String
  ticker : String
  title : String
deriving DecidableEq, Repr

/-- `resolve_company_name` (src/app/api/cik_resolver.py lines 146-185).
`aliases` is the successfully loaded alias map and `secData` the decoded
ticker directory (a failed directory fetch only leads to the same
`ResolutionError`).  Returns `(title, cik)` on an exact ticker or title
match of the alias-resolved name, and an error otherwise. -/
def resolve_company_name (aliases : List (String × String))
    (secData : List SecEntry) (name : String) : Except String (String × String) :=
  let nameLower := normalize_key name
  let resolved := (alookup aliases nameLower).getD name
  match secData.find? (fun e =>
      lowerStr resolved = normalize_key e.ticker ∨
      lowerStr resolved = lowerStr e.title) with
  | some e => .ok (e.title, pyZfill e.cikStr 10)
  | none => .error ("Unable to resolve name: " ++ name)

/-! ### src/SECAPI.py : filing URL resolution -/

/-- Lexicographic boolean comparison on character lists, by code point, as
Python compares strings. -/
def strLeB : List Char → List Char → Bool
  | [], _ => true
  | _ :: _, [] => false
  | c :: cs, d :: ds =>
    if c.toNat < d.toNat then true
    else if d.toNat < c.toNat then false
    else strLeB cs ds

/-- Descending comparison on `(score, href)` pairs: `p` may precede `q`
exactly when `p ≥ q` in Python tuple order, matching
`candidates.sort(reverse=True)` on `(int, str)` tuples. -/
def candGeB (p q : Int × String) : Bool :=
  decide (q.1 < p.1) || (decide (p.1 = q.1) && strLeB q.2.data p.2.data)

/-- Python substring membership `needle in hay`. -/
def containsSub (hay needle : List Char) : Bool :=
  match hay with
  | [] => needle.isEmpty
  | _ :: t => needle.isPrefixOf hay || containsSub t needle

/-- Candidate scoring of `get_actual_filing_url` (src/SECAPI.py lines 73-77):
score each lowercased anchor href ending in ".htm". -/
def scoreHref (href : String) : Int :=
  (if containsSub href.data "10q".data then 3 else 0) +
  (if containsSub href.data "form".data || containsSub href.data "main".data then 2 else 0) +
  (if containsSub href.data "index".data || containsSub href.data "cover".data ||
      containsSub href.data "summary".data then -1 else 0)

/-- Build the scored candidate list from the index-page anchor hrefs:
lowercase each href (`a.get("href", "").lower()`), keep those ending in
".htm", and pair them with their score. -/
def candidatesOf (anchors : List String) : List (Int × String) :=
  (anchors.map lowerStr).filterMap (fun h =>
    if pyEndsWith h ".htm" then some (scoreHref h, h) else none)

/-- `candidates.sort(reverse=True)` (src/SECAPI.py line 79). -/
def sortCandidates (cs : List (Int × String)) : List (Int × String) :=
  sortByB candGeB cs

/-- `get_actual_filing_url` (src/SECAPI.py lines 51-92).  `valid` models
`validate_url` (a network probe), and `indexAnchors` the anchor hrefs parsed
from the filing index page, with `none` when fetching or parsing the index
page raises.  Returns the report URL or "Unavailable". -/
def get_actual_filing_url (valid : String → Bool) (cik accession primaryDoc : String)
    (indexAnchors : Option (List String)) : String :=
  let baseUrl := "https://www.sec.gov/Archives/edgar/data/" ++ cik ++ "/" ++ accession ++ "/"
  if primaryDoc ≠ "" ∧ pyEndsWith primaryDoc ".htm" = true ∧
      valid (baseUrl ++ primaryDoc) = true then
    baseUrl ++ primaryDoc
  else
    match indexAnchors with
    | none => "Unavailable"
    | some anchors =>
      match (sortCandidates (candidatesOf anchors)).find?
          (fun p => valid ("https://www.sec.gov" ++ p.2)) with
      | some p => "https://www.sec.gov" ++ p.2
      | none => "Unavailable"

/-- Status derivation in `fetch_filing` (src/SECAPI.py line 159):
`"Validated" if html_url and html_url != "Unavailable" else "Unavailable"`. -/
def reportStatus (htmlUrl : String) : String :=
  if htmlUrl ≠ "" ∧ htmlUrl ≠ "Unavailable" then "Validated" else "Unavailable"

/-! ### src/SECAPI.py : quarterly filing selection -/

/-- Number of days in a month for `datetime.strptime` validation, with the
Gregorian leap-year rule. -/
def daysInMonth (y m : Nat) : Nat :=
  if m = 2 then
    if y % 4 = 0 ∧ (y % 100 ≠ 0 ∨ y % 400 = 0) then 29 else 28
  else if m = 4 ∨ m = 6 ∨ m = 9 ∨ m = 11 then 30
  else 31

/-- `datetime.strptime(s, "%Y-%m-%d")` (src/SECAPI.py line 136), returning a
single ordinal `y * 512 + m * 32 + d` that orders exactly like the parsed
date.  `%Y` takes exactly four digits, `%m` and `%d` one or two, the month
must be 1-12, the day valid for the month, and the year at least 1; any
other string raises ValueError, modelled as `none`. -/
def parseDate (s : String) : Option Nat :=
  match s.data.splitOn '-' with
  | [ys, ms, ds] =>
    if ys.length = 4 ∧ ys.all isDigitChar ∧
       ms ≠ [] ∧ ms.length ≤ 2 ∧ ms.all isDigitChar ∧
       ds ≠ [] ∧ ds.length ≤ 2 ∧ ds.all isDigitChar then
      let y := natOfDigits ys
      let m := natOfDigits ms
      let d := natOfDigits ds
      if 1 ≤ y ∧ 1 ≤ m ∧ m ≤ 12 ∧ 1 ≤ d ∧ d ≤ daysInMonth y m then
        some (y * 512 + m * 32 + d)
      else none
    else none
  | _ => none

/-- Descending comparison on `(date, index)` pairs, matching
`all_10q.sort(reverse=True)` (src/SECAPI.py line 141). -/
def dateIdxGeB (p q : Nat × Nat) : Bool :=
  decide (q.1 < p.1) || (decide (p.1 = q.1) && decide (q.2 ≤ p.2))

/-- The 10-Q selection loop of `get_quarterly_filings` (src/SECAPI.py lines
132-141): keep `(parsed date, index)` for every index whose form is "10-Q"
and whose filing-date string parses, skipping the rest, then sort in
descending order. -/
def select10Q (forms dates : List String) : List (Nat × Nat) :=
  sortByB dateIdxGeB
    ((List.range forms.length).filterMap (fun i =>
      if forms.get? i = some "10-Q" then
        (dates.get? i >>= parseDate).map (fun k => (k, i))
      else none))

/-- `top_indices = [i for _, i in all_10q[:count]]` (src/SECAPI.py line 142). -/
def topIndices (forms dates : List String) (count : Nat) : List Nat :=
  ((select10Q forms dates).take count).map Prod.snd

/-- The parallel arrays of the submissions feed consumed by
`get_quarterly_filings` (src/SECAPI.py lines 126-130). -/
structure Feed where
  forms : List String
  accessionNumbers : List String
  primaryDocs : List String
  filingDates : List String
deriving Repr

/-- One element of the `filings` list built by `fetch_filing`
(src/SECAPI.py lines 153-169), restricted to the data-bearing fields. -/
structure FilingOut where
  filingDate : String
  htmlUrl : String
  status : String
deriving DecidableEq, Repr

/-- `fetch_filing` (src/SECAPI.py lines 153-169) for one selected index.
`getUrl` stands for `get_actual_filing_url` with its network effects fixed.
Out-of-range access to a parallel array raises `IndexError`, modelled as
`none` (caught by the outer handler of `get_quarterly_filings`). -/
def fetchFiling (getUrl : String → String → String → String) (cik : String)
    (feed : Feed) (i : Nat) : Option FilingOut := do
  let accessionRaw ← feed.accessionNumbers.get? i
  let primaryDoc ← feed.primaryDocs.get? i
  let filingDate ← feed.filingDates.get? i
  let accession := String.mk (accessionRaw.data.filter (fun c => c ≠ '-'))
  let htmlUrl := getUrl cik accession primaryDoc
  pure ⟨filingDate, htmlUrl, reportStatus htmlUrl⟩

/-- Default of the `count` query parameter, `Query(2, ...)`
(src/SECAPI.py line 97). -/
def quarterliesDefaultCount : Nat := 2

/-- Result shape of `get_quarterly_filings` as far as filings and errors are
concerned: the filings list, the `error` field, and the `note` field. -/
structure QuarterliesResult where
  filings : List FilingOut
  error : Option String
  note : Option String
deriving DecidableEq, Repr

/-- Evaluate an option-returning function over a list, failing as a whole as
soon as one element fails (the `executor.map` loop, where an exception in
any task propagates to the caller). -/
def mapOpt {α β : Type} (f : α → Option β) : List α → Option (List β)
  | [] => some []
  | a :: t =>
    match f a, mapOpt f t with
    | some b, some bs => some (b :: bs)
    | _, _ => none

/-- The body of `get_quarterly_filings` (src/SECAPI.py lines 113-205) after
a successful CIK resolution and a 200 submissions-feed response, from the
parallel arrays on: select the `count` most recent 10-Q records, return a
no-error empty result with a note when none match, and otherwise resolve
each selected filing (an exception in that phase falls to the outer handler,
which returns an error result with an empty filings list). -/
def get_quarterly_filings (getUrl : String → String → String → String)
    (cik : String) (feed : Feed) (count : Nat) : QuarterliesResult :=
  let top := topIndices feed.forms feed.filingDates count
  if top = [] then ⟨[], none, some "No recent 10-Qs found"⟩
  else
    match mapOpt (fetchFiling getUrl cik feed) top with
    | some filings => ⟨filings, none, none⟩
    | none => ⟨[], some "list index out of range", none⟩

/-! ### src/app/api/agents/agent1_fetch_sec.py : Item 1 table extraction

The table loop of `_extract_tables_from_item1` (lines 180-187, identical in
agent2_analyze_financials.py lines 116-123).  A parsed `<table>` is a list
of `<tr>` rows, each a list of cell texts; `td.get_text(strip=True)` is
modelled by stripping each cell text. -/

/-- One output row: `','.join(cells)` over the stripped cell texts. -/
def renderRow (cells : List String) : String :=
  joinSep "," (cells.map pyStrip)

/-- One table string: `'\n'.join(rows)`. -/
def renderTable (rows : List (List String)) : String :=
  joinSep "\n" (rows.map renderRow)

/-- `_extract_tables_from_item1` on its parsed-table data: with an empty
Item 1 section return `[]`; otherwise render each table and keep it only
when `table_text.strip()` is truthy (nonempty). -/
def extract_tables_from_item1 (item1 : String) (tables : List (List (List String))) :
    List String :=
  if item1 = "" then []
  else (tables.map renderTable).filter (fun t => pyStrip t ≠ "")

/-! ### String similarity

Modelled from the spec: no fuzzy-matching tier exists anywhere in src
(neither resolve_cik nor resolve_company_name computes any similarity), so
the similarity ratio the spec describes is defined here only to state the
fuzzy-matching claim.  The score is the normalized edit-distance-style
ratio 2M/T of difflib.SequenceMatcher.ratio, with M the longest common
subsequence length and T the total length of the two strings. -/

/-- Longest-common-subsequence length with explicit fuel for structural
recursion; fuel `|a| + |b|` always suffices. -/
def lcsFuel : Nat → List Char → List Char → Nat
  | 0, _, _ => 0
  | _ + 1, [], _ => 0
  | _ + 1, _ :: _, [] => 0
  | f + 1, a :: as, b :: bs =>
    if a = b then lcsFuel f as bs + 1
    else max (lcsFuel f (a :: as) bs) (lcsFuel f as (b :: bs))

/-- Longest-common-subsequence length of two character lists. -/
def lcsLen (a b : List Char) : Nat := lcsFuel (a.length + b.length) a b

/-- Modelled from the spec: the similarity ratio 2M/(|a|+|b|) is at least
num/den, written as a cross-multiplied natural-number inequality (so
`simRatioAtLeast a b 85 100` states a score of at least 0.85). -/
def simRatioAtLeast (a b : String) (num den : Nat) : Prop :=
  num * (a.data.length + b.data.length) ≤ den * (2 * lcsLen a.data b.data)

instance (a b : String) (num den : Nat) : Decidable (simRatioAtLeast a b num den) := by
  unfold simRatioAtLeast; infer_instance

/-! ### SectionExtractor

Modelled from the spec (section 4.5): the Part-aware section extractor is
absent from src - the extract_10q_sections present in src returns only
item1/item2/notes keys, while the repository tests
(src/tests/test_agent1_fetch_sec.py, src/tests/test_pipeline.py) exercise a
Part-aware extract_10q_sections that is not among the source files.  The
model follows the spec: strip HTML to text, collapse whitespace, find every
"Part <numeral>" header (Roman or Arabic), slice each header to the next,
normalize labels to Roman-numeral form, and fall back to a single synthetic
"Part I" holding the whole document when no header is found. -/

/-- Strip HTML tags from a character stream, replacing each tag with a
single space (text separator). -/
def stripTags : List Char → Bool → List Char
  | [], _ => []
  | c :: t, true => if c = '>' then ' ' :: stripTags t false else stripTags t true
  | c :: t, false => if c = '<' then stripTags t true else c :: stripTags t false

/-- Split a character stream into whitespace-separated words. -/
def wordsAux : List Char → List Char → List String
  | [], acc => if acc.isEmpty then [] else [String.mk acc.reverse]
  | c :: t, acc =>
    if pyWhite c then
      if acc.isEmpty then wordsAux t [] else String.mk acc.reverse :: wordsAux t []
    else wordsAux t (c :: acc)

/-- The whitespace-collapsed word stream of the tag-stripped HTML. -/
def wordsOf (html : String) : List String := wordsAux (stripTags html.data false) []

/-- Modelled from the spec: an Arabic numeral word (a nonempty digit string
with value at least 1). -/
def parseArabic (s : String) : Option Nat :=
  if pyIsDigit s ∧ 1 ≤ natOfDigits s.data then some (natOfDigits s.data) else none

/-- Value of a single Roman numeral letter (uppercased). -/
def romanCharVal : Char → Option Nat
  | 'I' => some 1
  | 'V' => some 5
  | 'X' => some 10
  | 'L' => some 50
  | 'C' => some 100
  | 'D' => some 500
  | 'M' => some 1000
  | _ => none

/-- Subtractive Roman evaluation: a letter smaller than its successor
counts negatively. -/
def romanFold : List Nat → Nat
  | [] => 0
  | [v] => v
  | v :: w :: t => if v < w then romanFold (w :: t) - v else v + romanFold (w :: t)

/-- Modelled from the spec: a Roman numeral word, case-insensitive, with
value at least 1. -/
def parseRoman (s : String) : Option Nat :=
  match (s.data.map Char.toUpper).mapM romanCharVal with
  | some (v :: vs) =>
    if 1 ≤ romanFold (v :: vs) then some (romanFold (v :: vs)) else none
  | _ => none

/-- Modelled from the spec: a Part-header numeral, Arabic or Roman. -/
def parseNumeral (s : String) : Option Nat := (parseArabic s).orElse (fun _ => parseRoman s)

/-- All "Part <numeral>" header occurrences in a word stream: pairs of the
header word position and the numeral value. -/
def partHeads (ws : List String) : List (Nat × Nat) :=
  (List.range ws.length).filterMap (fun i =>
    if lowerStr ((ws.get? i).getD "") = "part" then
      ((ws.get? (i + 1)).bind parseNumeral).map (fun n => (i, n))
    else none)

/-- Roman units digit. -/
def romanOnes : Nat → String
  | 1 => "I" | 2 => "II" | 3 => "III" | 4 => "IV" | 5 => "V"
  | 6 => "VI" | 7 => "VII" | 8 => "VIII" | 9 => "IX" | _ => ""

/-- Roman tens digit. -/
def romanTens : Nat → String
  | 1 => "X" | 2 => "XX" | 3 => "XXX" | 4 => "XL" | 5 => "L"
  | 6 => "LX" | 7 => "LXX" | 8 => "LXXX" | 9 => "XC" | _ => ""

/-- Roman hundreds digit. -/
def romanHundreds : Nat → String
  | 1 => "C" | 2 => "CC" | 3 => "CCC" | 4 => "CD" | 5 => "D"
  | 6 => "DC" | 7 => "DCC" | 8 => "DCCC" | 9 => "CM" | _ => ""

/-- Roman numeral rendering of a positive natural number. -/
def toRoman (n : Nat) : String :=
  String.mk (List.replicate (n / 1000) 'M') ++
    romanHundreds (n / 100 % 10) ++ romanTens (n / 10 % 10) ++ romanOnes (n % 10)

/-- The word slice `[start, stop)`. -/
def sliceBetween (ws : List String) (start stop : Nat) : List String :=
  (ws.take stop).drop start

/-- Modelled from the spec: partition a word stream into Parts, one entry
per header (label normalized to Roman form, slice running to the next
header), with a single synthetic "Part I" over the whole stream when no
header is found. -/
def extract_parts (ws : List String) : List (String × List String) :=
  match partHeads ws with
  | [] => [("Part I", ws)]
  | h :: hs =>
    let heads := h :: hs
    let stops := (heads.map Prod.fst).tail ++ [ws.length]
    (heads.zip stops).map (fun p =>
      ("Part " ++ toRoman p.1.2, sliceBetween ws p.1.1 p.2))

/-- Modelled from the spec: the section extractor on raw filing HTML. -/
def sectionExtract (html : String) : List (String × List String) :=
  extract_parts (wordsOf html)

/-- The number of "Part <numeral>" header occurrences an HTML document
contains. -/
def partHeadCount (html : String) : Nat := (partHeads (wordsOf html)).length

/-- A Roman numeral character. -/
def isRomanChar (c : Char) : Bool :=
  c = 'I' || c = 'V' || c = 'X' || c = 'L' || c = 'C' || c = 'D' || c = 'M'

/-! ### Association list lemmas -/

theorem alookup_mem {α : Type} {m : List (String × α)} {k : String} {v : α}
    (h : alookup m k = some v) : (k, v) ∈ m := by
  induction m with
  | nil => simp [alookup] at h
  | cons p t ih =>
    obtain ⟨k', v'⟩ := p
    by_cases hk : k' = k
    · subst hk
      simp [alookup] at h
      simp [h]
    · simp [alookup, hk] at h
      exact List.mem_cons_of_mem _ (ih h)

theorem alookup_ainsert_self {α : Type} (m : List (String × α)) (k : String) (v : α) :
    alookup (ainsert m k v) k = some v := by
  induction m with
  | nil => simp [ainsert, alookup]
  | cons p t ih =>
    obtain ⟨k', v'⟩ := p
    by_cases hk : k' = k
    · subst hk; simp [ainsert, alookup]
    · simp [ainsert, alookup, hk, ih]

theorem alookup_ainsert_ne {α : Type} (m : List (String × α)) (k k' : String) (v : α)
    (h : k' ≠ k) : alookup (ainsert m k v) k' = alookup m k' := by
  have hk : ¬(k = k') := fun hc => h hc.symm
  induction m with
  | nil => simp [ainsert, alookup, hk]
  | cons p t ih =>
    obtain ⟨k₀, v₀⟩ := p
    simp only [ainsert]
    by_cases h0 : k₀ = k
    · simp only [h0, if_true, alookup, hk, if_false]
    · simp only [h0, if_false, alookup]
      by_cases h1 : k₀ = k'
      · simp [h1]
      · simp [h1, ih]

theorem ainsert_idem {α : Type} (m : List (String × α)) (k : String) (v : α) :
    ainsert (ainsert m k v) k v = ainsert m k v := by
  induction m with
  | nil => simp [ainsert]
  | cons p t ih =>
    obtain ⟨k', v'⟩ := p
    by_cases hk : k' = k
    · subst hk; simp [ainsert]
    · simp [ainsert, hk, ih]

theorem mem_ainsert {α : Type} {x : String × α} {m : List (String × α)} {k : String} {v : α}
    (h : x ∈ ainsert m k v) : x = (k, v) ∨ x ∈ m := by
  induction m with
  | nil => simpa [ainsert] using h
  | cons p t ih =>
    obtain ⟨k', v'⟩ := p
    by_cases hk : k' = k
    · subst hk
      simp only [ainsert, if_true] at h
      rcases List.mem_cons.1 h with h' | h'
      · exact Or.inl h'
      · exact Or.inr (List.mem_cons_of_mem _ h')
    · simp only [ainsert, hk, if_false] at h
      rcases List.mem_cons.1 h with h' | h'
      · exact Or.inr (by simp [h'])
      · rcases ih h' with h'' | h''
        · exact Or.inl h''
        · exact Or.inr (List.mem_cons_of_mem _ h'')

/-! ### Sort lemmas -/

theorem mem_orderedInsertBy {α : Type} (le : α → α → Bool) (a x : α) (l : List α) :
    x ∈ orderedInsertBy le a l ↔ x = a ∨ x ∈ l := by
  induction l with
  | nil => simp [orderedInsertBy]
  | cons b t ih =>
    by_cases h : le a b = true
    · simp [orderedInsertBy, if_pos h, List.mem_cons]
    · simp only [orderedInsertBy, if_neg h, List.mem_cons, ih]
      tauto

theorem mem_sortByB {α : Type} (le : α → α → Bool) (x : α) (l : List α) :
    x ∈ sortByB le l ↔ x ∈ l := by
  induction l with
  | nil => simp [sortByB]
  | cons a t ih => simp [sortByB, mem_orderedInsertBy, ih, List.mem_cons]

theorem length_sortByB {α : Type} (le : α → α → Bool) (l : List α) :
    (sortByB le l).length = l.length := by
  have key : ∀ (a : α) (m : List α), (orderedInsertBy le a m).length = m.length + 1 := by
    intro a m
    induction m with
    | nil => simp [orderedInsertBy]
    | cons b t ih =>
      by_cases h : le a b = true
      · simp [orderedInsertBy, h]
      · simp [orderedInsertBy, h, ih]
  induction l with
  | nil => simp [sortByB]
  | cons a t ih => simp [sortByB, key, ih]

theorem pairwise_orderedInsertBy {α : Type} {le : α → α → Bool}
    (htot : ∀ a b, le a b = true ∨ le b a = true)
    (htrans : ∀ a b c, le a b = true → le b c = true → le a c = true)
    (a : α) {l : List α} (h : List.Pairwise (fun x y => le x y = true) l) :
    List.Pairwise (fun x y => le x y = true) (orderedInsertBy le a l) := by
  induction l with
  | nil => simp [orderedInsertBy]
  | cons b t ih =>
    rcases List.pairwise_cons.1 h with ⟨hb, ht⟩
    by_cases hab : le a b = true
    · simp only [orderedInsertBy, hab, if_true]
      refine List.pairwise_cons.2 ⟨?_, h⟩
      intro y hy
      rcases List.mem_cons.1 hy with rfl | hy'
      · exact hab
      · exact htrans a b y hab (hb y hy')
    · simp only [orderedInsertBy, hab, if_false]
      have hba : le b a = true := (htot a b).resolve_left hab
      refine List.pairwise_cons.2 ⟨?_, ih ht⟩
      intro y hy
      rcases (mem_orderedInsertBy le a y t).1 hy with rfl | hy'
      · exact hba
      · exact hb y hy'

theorem pairwise_sortByB {α : Type} {le : α → α → Bool}
    (htot : ∀ a b, le a b = true ∨ le b a = true)
    (htrans : ∀ a b c, le a b = true → le b c = true → le a c = true)
    (l : List α) : List.Pairwise (fun x y => le x y = true) (sortByB le l) := by
  induction l with
  | nil => simp [sortByB]
  | cons a t ih => exact pairwise_orderedInsertBy htot htrans a ih

/-! ### mapOpt lemmas -/

theorem mapOpt_mem {α β : Type} {f : α → Option β} :
    ∀ {l : List α} {ys : List β}, mapOpt f l = some ys → ∀ y ∈ ys, ∃ x ∈ l, f x = some y := by
  intro l
  induction l with
  | nil =>
    intro ys h y hy
    simp [mapOpt] at h
    subst h
    simp at hy
  | cons a t ih =>
    intro ys h y hy
    rcases ha : f a with _ | b <;> rcases ht : mapOpt f t with _ | bs <;>
      simp [mapOpt, ha, ht] at h
    subst h
    rcases List.mem_cons.1 hy with rfl | hy'
    · exact ⟨a, List.mem_cons_self a t, ha⟩
    · rcases ih ht y hy' with ⟨x, hx, hfx⟩
      exact ⟨x, List.mem_cons_of_mem _ hx, hfx⟩

theorem mapOpt_length {α β : Type} {f : α → Option β} :
    ∀ {l : List α} {ys : List β}, mapOpt f l = some ys → ys.length = l.length := by
  intro l
  induction l with
  | nil =>
    intro ys h
    simp [mapOpt] at h
    subst h
    rfl
  | cons a t ih =>
    intro ys h
    rcases ha : f a with _ | b <;> rcases ht : mapOpt f t with _ | bs <;>
      simp [mapOpt, ha, ht] at h
    subst h
    simp [ih ht]

/-! ### Whitespace and strip lemmas -/

theorem stripChars_eq_nil_iff (l : List Char) :
    stripChars l = [] ↔ ∀ c ∈ l, pyWhite c = true := by
  unfold stripChars
  constructor
  · intro h c hc
    have h1 : (l.dropWhile pyWhite).reverse.dropWhile pyWhite = [] := by
      simpa using congrArg List.reverse h
    have h3 : ∀ x ∈ l.dropWhile pyWhite, pyWhite x = true := by
      intro x hx
      exact List.dropWhile_eq_nil_iff.1 h1 x (List.mem_reverse.2 hx)
    have hsplit : c ∈ l.takeWhile pyWhite ++ l.dropWhile pyWhite := by
      rw [List.takeWhile_append_dropWhile]
      exact hc
    rcases List.mem_append.1 hsplit with hc' | hc'
    · exact List.mem_takeWhile_imp hc'
    · exact h3 c hc'
  · intro h
    have : l.dropWhile pyWhite = [] := List.dropWhile_eq_nil_iff.2 h
    simp [this]

theorem pyStrip_eq_empty_iff (s : String) :
    pyStrip s = "" ↔ ∀ c ∈ s.data, pyWhite c = true := by
  constructor
  · intro h
    have : stripChars s.data = [] := by
      have := congrArg String.data h
      simpa [pyStrip] using this
    exact (stripChars_eq_nil_iff s.data).1 this
  · intro h
    have : stripChars s.data = [] := (stripChars_eq_nil_iff s.data).2 h
    simp [pyStrip, this]

theorem joinSep_newline_white_iff (rs : List String) :
    (∀ c ∈ (joinSep "\n" rs).data, pyWhite c = true) ↔
      ∀ r ∈ rs, ∀ c ∈ r.data, pyWhite c = true := by
  induction rs with
  | nil => simp [joinSep]
  | cons x xs ih =>
    cases xs with
    | nil => simp [joinSep]
    | cons y ys =>
      have hj : joinSep "\n" (x :: y :: ys) = x ++ "\n" ++ joinSep "\n" (y :: ys) := rfl
      rw [hj]
      constructor
      · intro h r hr c hc
        rcases List.mem_cons.1 hr with rfl | hr'
        · refine h c ?_
          rw [String.data_append, String.data_append]
          exact List.mem_append.2 (Or.inl (List.mem_append.2 (Or.inl hc)))
        · refine (ih.1 ?_) r hr' c hc
          intro c' hc'
          refine h c' ?_
          rw [String.data_append, String.data_append]
          exact List.mem_append.2 (Or.inr hc')
      · intro h c hc
        rw [String.data_append, String.data_append] at hc
        rcases List.mem_append.1 hc with hc1 | hc2
        · rcases List.mem_append.1 hc1 with hx | hn
          · exact h x (List.mem_cons_self _ _) c hx
          · have : c = '\n' := by simpa using hn
            subst this
            rfl
        · exact ih.2 (fun r hr => h r (List.mem_cons_of_mem _ hr)) c hc2

/-! ### Comparison totality and transitivity -/

theorem strLeB_total : ∀ a b, strLeB a b = true ∨ strLeB b a = true := by
  intro a
  induction a with
  | nil => intro b; left; rfl
  | cons c cs ih =>
    intro b
    cases b with
    | nil => right; rfl
    | cons d ds =>
      simp only [strLeB]
      rcases Nat.lt_trichotomy c.toNat d.toNat with h | h | h
      · left; simp [h]
      · have h1 : ¬c.toNat < d.toNat := by omega
        have h2 : ¬d.toNat < c.toNat := by omega
        simpa [h1, h2] using ih ds
      · right; simp [h]

theorem strLeB_trans : ∀ a b c, strLeB a b = true → strLeB b c = true → strLeB a c = true := by
  intro a
  induction a with
  | nil => intro b c _ _; rfl
  | cons x xs ih =>
    intro b c hab hbc
    cases b with
    | nil => simp [strLeB] at hab
    | cons y ys =>
      cases c with
      | nil => simp [strLeB] at hbc
      | cons z zs =>
        simp only [strLeB] at hab hbc ⊢
        by_cases hxy : x.toNat < y.toNat
        · by_cases hyz : y.toNat < z.toNat
          · simp [show x.toNat < z.toNat by omega]
          · by_cases hzy : z.toNat < y.toNat
            · simp [hyz, hzy] at hbc
            · simp [show x.toNat < z.toNat by omega]
        · by_cases hyx : y.toNat < x.toNat
          · simp [hxy, hyx] at hab
          · by_cases hyz : y.toNat < z.toNat
            · simp [show x.toNat < z.toNat by omega]
            · by_cases hzy : z.toNat < y.toNat
              · simp [hyz, hzy] at hbc
              · have h1 : ¬x.toNat < z.toNat := by omega
                have h2 : ¬z.toNat < x.toNat := by omega
                simp only [h1, if_false, h2]
                simp [hxy, hyx] at hab
                simp [hyz, hzy] at hbc
                exact ih ys zs hab hbc

theorem candGeB_total : ∀ p q, candGeB p q = true ∨ candGeB q p = true := by
  intro p q
  unfold candGeB
  rcases lt_trichotomy p.1 q.1 with h | h | h
  · right; simp [h]
  · rcases strLeB_total p.2.data q.2.data with h' | h'
    · right; simp [h, h']
    · left; simp [h, h']
  · left; simp [h]

theorem candGeB_trans : ∀ p q r, candGeB p q = true → candGeB q r = true → candGeB p r = true := by
  intro p q r hpq hqr
  unfold candGeB at hpq hqr ⊢
  simp only [Bool.or_eq_true, Bool.and_eq_true, decide_eq_true_eq] at hpq hqr ⊢
  rcases hpq with h1 | ⟨h1, h1'⟩ <;> rcases hqr with h2 | ⟨h2, h2'⟩
  · exact Or.inl (by omega)
  · exact Or.inl (by omega)
  · exact Or.inl (by omega)
  · exact Or.inr ⟨by omega, strLeB_trans _ _ _ h2' h1'⟩

theorem dateIdxGeB_total : ∀ p q : Nat × Nat, dateIdxGeB p q = true ∨ dateIdxGeB q p = true := by
  intro p q
  unfold dateIdxGeB
  simp only [Bool.or_eq_true, Bool.and_eq_true, decide_eq_true_eq]
  omega

theorem dateIdxGeB_trans : ∀ p q r : Nat × Nat,
    dateIdxGeB p q = true → dateIdxGeB q r = true → dateIdxGeB p r = true := by
  intro p q r hpq hqr
  unfold dateIdxGeB at hpq hqr ⊢
  simp only [Bool.or_eq_true, Bool.and_eq_true, decide_eq_true_eq] at hpq hqr ⊢
  omega

/-! ### zfill lemmas -/

theorem pyZfill_digits {s : String} (h1 : s.data ≠ []) (h2 : s.data.length ≤ 10)
    (h3 : ∀ c ∈ s.data, isDigitChar c = true) :
    pyZfill s 10 = String.mk (List.replicate (10 - s.data.length) '0' ++ s.data) := by
  obtain ⟨l⟩ := s
  simp only [pyZfill]
  by_cases hlen : 10 ≤ l.length
  · have hl : l.length = 10 := le_antisymm h2 hlen
    simp [hlen, hl]
  · simp only [if_neg hlen]
    cases l with
    | nil => exact absurd rfl h1
    | cons c rest =>
      have hc : isDigitChar c = true := h3 c (List.mem_cons_self _ _)
      have hns : ¬(c = '+' ∨ c = '-') := by
        rintro (rfl | rfl) <;> simp [isDigitChar] at hc
      simp [hns]

theorem pyZfill_digits_length {s : String} (h1 : s.data ≠ []) (h2 : s.data.length ≤ 10)
    (h3 : ∀ c ∈ s.data, isDigitChar c = true) :
    (pyZfill s 10).data.length = 10 := by
  rw [pyZfill_digits h1 h2 h3]
  show (List.replicate (10 - s.data.length) '0' ++ s.data).length = 10
  rw [List.length_append, List.length_replicate]
  have : s.data.length ≠ 0 := by
    intro hz
    exact h1 (List.length_eq_zero.1 hz)
  omega

/-! ### Roman numeral lemmas -/

theorem romanOnes_all_roman : ∀ d, (romanOnes d).data.all isRomanChar = true := by
  intro d
  rcases d with _ | _ | _ | _ | _ | _ | _ | _ | _ | _ | d <;> rfl

theorem romanTens_all_roman : ∀ d, (romanTens d).data.all isRomanChar = true := by
  intro d
  rcases d with _ | _ | _ | _ | _ | _ | _ | _ | _ | _ | d <;> rfl

theorem romanHundreds_all_roman : ∀ d, (romanHundreds d).data.all isRomanChar = true := by
  intro d
  rcases d with _ | _ | _ | _ | _ | _ | _ | _ | _ | _ | d <;> rfl

theorem romanOnes_eq_empty (d : Nat) (h : d < 10) : romanOnes d = "" → d = 0 := by
  interval_cases d <;> simp [romanOnes]

theorem romanTens_eq_empty (d : Nat) (h : d < 10) : romanTens d = "" → d = 0 := by
  interval_cases d <;> simp [romanTens]

theorem romanHundreds_eq_empty (d : Nat) (h : d < 10) : romanHundreds d = "" → d = 0 := by
  interval_cases d <;> simp [romanHundreds]

theorem toRoman_all_roman (n : Nat) : (toRoman n).data.all isRomanChar = true := by
  unfold toRoman
  simp only [String.data_append, List.all_append, Bool.and_eq_true]
  refine ⟨⟨⟨?_, ?_⟩, ?_⟩, ?_⟩
  · show (List.replicate (n / 1000) 'M').all isRomanChar = true
    rw [List.all_eq_true]
    intro c hc
    rw [List.eq_of_mem_replicate hc]
    rfl
  · exact romanHundreds_all_roman _
  · exact romanTens_all_roman _
  · exact romanOnes_all_roman _

theorem toRoman_ne_empty (n : Nat) (h : 1 ≤ n) : (toRoman n).data ≠ [] := by
  unfold toRoman
  intro hc
  simp only [String.data_append, List.append_eq_nil] at hc
  obtain ⟨⟨⟨h1, h2⟩, h3⟩, h4⟩ := hc
  have e1 : n / 1000 = 0 := by
    have : List.replicate (n / 1000) 'M' = [] := h1
    simpa [List.replicate_eq_nil_iff] using this
  have e2 : n / 100 % 10 = 0 := by
    apply romanHundreds_eq_empty _ (Nat.mod_lt _ (by norm_num))
    have := congrArg String.mk h2
    simpa using this
  have e3 : n / 10 % 10 = 0 := by
    apply romanTens_eq_empty _ (Nat.mod_lt _ (by norm_num))
    have := congrArg String.mk h3
    simpa using this
  have e4 : n % 10 = 0 := by
    apply romanOnes_eq_empty _ (Nat.mod_lt _ (by norm_num))
    have := congrArg String.mk h4
    simpa using this
  omega

/-! ### Numeral parser lemmas -/

theorem parseArabic_pos {s : String} {n : Nat} (h : parseArabic s = some n) : 1 ≤ n := by
  unfold parseArabic at h
  split at h
  · rename_i hg
    simp at h
    omega
  · simp at h

theorem parseRoman_pos {s : String} {n : Nat} (h : parseRoman s = some n) : 1 ≤ n := by
  unfold parseRoman at h
  split at h
  · rename_i v vs heq
    split at h
    · rename_i hg
      simp at h
      omega
    · simp at h
  · simp at h

theorem parseNumeral_pos {s : String} {n : Nat} (h : parseNumeral s = some n) : 1 ≤ n := by
  unfold parseNumeral at h
  rcases ha : parseArabic s with _ | m
  · rw [ha] at h
    simp [Option.orElse] at h
    exact parseRoman_pos h
  · rw [ha] at h
    simp [Option.orElse] at h
    exact h ▸ parseArabic_pos ha

theorem partHeads_pos {ws : List String} {i n : Nat} (h : (i, n) ∈ partHeads ws) : 1 ≤ n := by
  unfold partHeads at h
  rcases List.mem_filterMap.1 h with ⟨j, _, hj⟩
  split at hj
  · rcases hb : (ws.get? (j + 1)).bind parseNumeral with _ | m
    · rw [hb] at hj
      simp at hj
    · rw [hb] at hj
      simp at hj
      rcases Option.bind_eq_some.1 hb with ⟨s, _, hp⟩
      exact hj.2 ▸ parseNumeral_pos hp
  · simp at hj

/-! ### Table rendering lemmas -/

theorem renderTable_strip_empty_iff (rows : List (List String)) :
    pyStrip (renderTable rows) = "" ↔ ∀ row ∈ rows, pyStrip (renderRow row) = "" := by
  rw [pyStrip_eq_empty_iff]
  unfold renderTable
  rw [joinSep_newline_white_iff]
  constructor
  · intro h row hrow
    rw [pyStrip_eq_empty_iff]
    exact h (renderRow row) (List.mem_map_of_mem _ hrow)
  · intro h r hr
    rcases List.mem_map.1 hr with ⟨row, hrow, rfl⟩
    rw [← pyStrip_eq_empty_iff]
    exact h row hrow

/-! ### record_alias and ticker cache lemmas -/

theorem record_alias_newAliases_cases (now : Nat) (aliasMap : List (String × String))
    (input v : String) (st : ResolverState) :
    (record_alias now aliasMap input v st).newAliases = st.newAliases ∨
      (record_alias now aliasMap input v st).newAliases
        = ainsert st.newAliases (lowerStr input) v := by
  unfold record_alias
  simp only []
  split
  · exact Or.inl rfl
  · split
    · exact Or.inr rfl
    · exact Or.inl rfl

theorem mem_load_company_tickers_json {vals : List RawTicker} {p : String × CikEntry}
    (h : p ∈ load_company_tickers_json vals) :
    ∃ v ∈ vals, p = (lowerStr v.ticker, ⟨pyZfill v.cikStr 10, v.title⟩) := by
  unfold load_company_tickers_json at h
  suffices H : ∀ (vs : List RawTicker) (acc : List (String × CikEntry)),
      p ∈ vs.foldl (fun acc v => ainsert acc (lowerStr v.ticker) ⟨pyZfill v.cikStr 10, v.title⟩) acc →
      p ∈ acc ∨ ∃ v ∈ vs, p = (lowerStr v.ticker, ⟨pyZfill v.cikStr 10, v.title⟩) by
    rcases H vals [] h with h' | h'
    · simp at h'
    · exact h'
  intro vs
  induction vs with
  | nil =>
    intro acc h'
    exact Or.inl h'
  | cons w ws ih =>
    intro acc h'
    rcases ih _ h' with h'' | h''
    · rcases mem_ainsert h'' with h3 | h3
      · exact Or.inr ⟨w, List.mem_cons_self _ _, h3⟩
      · exact Or.inl h3
    · rcases h'' with ⟨v, hv, he⟩
      exact Or.inr ⟨v, List.mem_cons_of_mem _ hv, he⟩

/-! ### 10-Q selection lemmas -/

theorem mem_select10Q {forms dates : List String} {k i : Nat} :
    (k, i) ∈ select10Q forms dates ↔
      (forms.get? i = some "10-Q" ∧ (dates.get? i >>= parseDate) = some k) := by
  unfold select10Q
  rw [mem_sortByB]
  constructor
  · intro h
    rcases List.mem_filterMap.1 h with ⟨j, _, hj⟩
    split at hj
    · rename_i hform
      rcases hb : dates.get? j >>= parseDate with _ | m
      · rw [hb] at hj
        simp at hj
      · rw [hb] at hj
        simp at hj
        obtain ⟨rfl, rfl⟩ := hj
        exact ⟨hform, hb⟩
    · simp at hj
  · rintro ⟨hform, hdate⟩
    apply List.mem_filterMap.2
    refine ⟨i, ?_, ?_⟩
    · have hlt : i < forms.length := by
        rcases List.get?_eq_some.1 hform with ⟨hl, _⟩
        exact hl
      exact List.mem_range.2 hlt
    · rw [if_pos hform, hdate]
      rfl

/-! ### Claim theorems -/

/-- Claim C4, counterexample: with the remote fetch raising an exception and
no local alias file, load_alias_map raises ResolutionError instead of
returning an empty mapping, refuting the claim that it never raises for any
combination of remote-fetch and local-file failures. -/
theorem claim_C4_counterexample :
    load_alias_map [] false false .exn .absent = .error "Failed to load alias map" := rfl

/-- Claim C4 (amended): on a cache miss, load_alias_map returns the
remote mapping when the remote fetch succeeds, else the local mapping when
the local file reads, with every ingested key normalized by lowercasing and
trimming; it returns the empty mapping only when the failures are
non-exceptional (remote non-200 status and absent local file), and raises
ResolutionError whenever an exception was recorded (remote exception with no
usable local file, or an unreadable local file). -/
theorem claim_C4 (cache : List (String × String)) (cacheFresh forceReload : Bool)
    (hMiss : cache = [] ∨ forceReload = true ∨ cacheFresh = false) :
    (∀ pairs lf, load_alias_map cache cacheFresh forceReload (.ok pairs) lf
        = .ok (normIngest pairs))
    ∧ (∀ pairs, load_alias_map cache cacheFresh forceReload .httpFail (.good pairs)
          = .ok (normIngest pairs)
        ∧ load_alias_map cache cacheFresh forceReload .exn (.good pairs)
          = .ok (normIngest pairs))
    ∧ load_alias_map cache cacheFresh forceReload .httpFail .absent = .ok []
    ∧ load_alias_map cache cacheFresh forceReload .exn .absent
        = .error "Failed to load alias map"
    ∧ (load_alias_map cache cacheFresh forceReload .httpFail .bad
          = .error "Failed to load alias map"
        ∧ load_alias_map cache cacheFresh forceReload .exn .bad
          = .error "Failed to load alias map")
    ∧ (∀ pairs p, p ∈ normIngest pairs → ∃ q ∈ pairs, p = (normalize_key q.1, q.2)) := by
  have hcond : ¬(cache ≠ [] ∧ forceReload = false ∧ cacheFresh = true) := by
    rcases hMiss with h | h | h <;> simp [h]
  refine ⟨?_, ?_, ?_, ?_, ⟨?_, ?_⟩, ?_⟩
  · intro pairs lf
    simp [load_alias_map, hcond]
  · intro pairs
    constructor <;> simp [load_alias_map, hcond]
  · simp [load_alias_map, hcond]
  · simp [load_alias_map, hcond]
  · simp [load_alias_map, hcond]
  · simp [load_alias_map, hcond]
  · intro pairs p hp
    rcases List.mem_map.1 hp with ⟨q, hq, rfl⟩
    exact ⟨q, hq, rfl⟩

/-- Claim C4 witness: the amended theorem applied to the cold-start state. -/
theorem claim_C4_witness :
    load_alias_map [] false false (.ok [("  GooG ", "Alphabet Inc.")]) .absent
      = .ok [("goog", "Alphabet Inc.")] := by
  have h := (claim_C4 [] false false (Or.inl rfl)).1 [("  GooG ", "Alphabet Inc.")] .absent
  rw [h]
  rfl

/-- Claim C5: record_alias adds a pending alias for the lowercased input key
only when that key is not already in the alias map or its recorded proposal
is older than the 7-day TTL; protected keys are never added; and a second
call for the same input and resolved name never produces a conflicting
pending alias - the pending binding seen after two calls is the binding
after one call, or the same proposed value. -/
theorem claim_C5 (now now' : Nat) (aliasMap : List (String × String)) (input v : String)
    (st : ResolverState) :
    (lowerStr input ∈ protectedAliases → record_alias now aliasMap input v st = st)
    ∧ ((alookup aliasMap (lowerStr input)).isSome = true →
        (∀ t, alookup st.aliasStamps (lowerStr input) = some t → now - t ≤ aliasTtl) →
        record_alias now aliasMap input v st = st)
    ∧ (lowerStr input ∉ protectedAliases →
        (alookup aliasMap (lowerStr input) = none ∨
          (∃ t, alookup st.aliasStamps (lowerStr input) = some t ∧ aliasTtl < now - t)) →
        alookup (record_alias now aliasMap input v st).newAliases (lowerStr input) = some v)
    ∧ (∀ k, alookup (record_alias now' aliasMap input v
              (record_alias now aliasMap input v st)).newAliases k
            = alookup (record_alias now aliasMap input v st).newAliases k ∨
          (k = lowerStr input ∧
            alookup (record_alias now' aliasMap input v
                (record_alias now aliasMap input v st)).newAliases k = some v)) := by
  refine ⟨?_, ?_, ?_, ?_⟩
  · intro h
    unfold record_alias
    simp only []
    rw [if_pos h]
  · intro hsome hfresh
    unfold record_alias
    simp only []
    split
    · rfl
    · rw [if_neg]
      simp only [Bool.or_eq_true]
      rintro (h1 | h2)
      · rw [Option.isNone_iff_eq_none] at h1
        rw [h1] at hsome
        simp at hsome
      · rcases hs : alookup st.aliasStamps (lowerStr input) with _ | t
        · rw [hs] at h2
          simp at h2
        · rw [hs] at h2
          simp only [decide_eq_true_eq] at h2
          have := hfresh t hs
          omega
  · intro hp hcond
    unfold record_alias
    simp only []
    rw [if_neg hp, if_pos]
    · exact alookup_ainsert_self _ _ _
    · simp only [Bool.or_eq_true]
      rcases hcond with h | ⟨t, hst, hstale⟩
      · left
        simp [h]
      · right
        rw [hst]
        simpa using hstale
  · intro k
    rcases record_alias_newAliases_cases now' aliasMap input v
        (record_alias now aliasMap input v st) with h2 | h2
    · left
      rw [h2]
    · by_cases hk : k = lowerStr input
      · subst hk
        right
        refine ⟨rfl, ?_⟩
        rw [h2]
        exact alookup_ainsert_self _ _ _
      · left
        rw [h2]
        exact alookup_ainsert_ne _ _ _ _ hk

/-- Claim C5 witness: recording a fresh alias twice leaves the single
pending binding in place. -/
theorem claim_C5_witness :
    alookup (record_alias 0 initialAliasMap "NVIDIA" "NVIDIA Corporation"
        ⟨[], []⟩).newAliases (lowerStr "NVIDIA") = some "NVIDIA Corporation" :=
  (claim_C5 0 1 initialAliasMap "NVIDIA" "NVIDIA Corporation" ⟨[], []⟩).2.2.1
    (by decide) (Or.inl (by decide))

/-- Claim C6, counterexample: resolving the exact official title
"Apple Inc." records a pending alias whose key equals the resolved name
case- and whitespace-insensitively, refuting the no-self-aliasing claim. -/
theorem claim_C6_counterexample :
    ((resolve_cik 0 (load_company_tickers_json [⟨"320193", "AAPL", "Apple Inc."⟩])
        initialAliasMap (fun _ => none) "Apple Inc." ⟨[], []⟩).2.newAliases
      = [("apple inc.", "Apple Inc.")])
    ∧ normalize_key "apple inc." = normalize_key "Apple Inc." := by decide

/-- Claim C6 (amended): the resolver has no self-aliasing guard: on an exact
official-name match it records the (lowercased input, official title) pair
whenever the key is unprotected and not yet in the alias map, with no
requirement that the input differ from the resolved official name - so an
input equal to the official name becomes a pending alias of itself. -/
theorem claim_C6 (now : Nat) (cikCache : List (String × CikEntry))
    (aliasMap : List (String × String)) (scrape : String → Option String)
    (input : String) (st : ResolverState) (p : String × CikEntry)
    (h1 : alookup cikCache (pyStrip (lowerStr input)) = none)
    (h2 : cikCache.find? (fun q => lowerStr q.2.title = pyStrip (lowerStr input)) = some p)
    (hp : lowerStr input ∉ protectedAliases)
    (hm : alookup aliasMap (lowerStr input) = none) :
    (resolve_cik now cikCache aliasMap scrape input st).1 = (some p.2.cik, p.2.title)
    ∧ alookup (resolve_cik now cikCache aliasMap scrape input st).2.newAliases
        (lowerStr input) = some p.2.title := by
  have hres : resolve_cik now cikCache aliasMap scrape input st
      = ((some p.2.cik, p.2.title), record_alias now aliasMap input p.2.title st) := by
    simp only [resolve_cik, h1, h2]
  rw [hres]
  refine ⟨rfl, ?_⟩
  unfold record_alias
  simp only []
  rw [if_neg hp, if_pos]
  · exact alookup_ainsert_self _ _ _
  · simp [hm]

/-- Claim C6 witness: the amended theorem applied to the "Apple Inc." data,
where the input equals the official title. -/
theorem claim_C6_witness :
    (resolve_cik 0 (load_company_tickers_json [⟨"320193", "AAPL", "Apple Inc."⟩])
        initialAliasMap (fun _ => none) "Apple Inc." ⟨[], []⟩).1
      = (some "0000320193", "Apple Inc.")
    ∧ alookup (resolve_cik 0 (load_company_tickers_json [⟨"320193", "AAPL", "Apple Inc."⟩])
        initialAliasMap (fun _ => none) "Apple Inc." ⟨[], []⟩).2.newAliases
        (lowerStr "Apple Inc.") = some "Apple Inc." :=
  claim_C6 0 (load_company_tickers_json [⟨"320193", "AAPL", "Apple Inc."⟩])
    initialAliasMap (fun _ => none) "Apple Inc." ⟨[], []⟩
    ("aapl", ⟨"0000320193", "Apple Inc."⟩)
    (by decide) (by decide) (by decide) (by decide)

/-- Claim C9: the Item 1 table extractor never emits a table whose every row
is empty after cell trimming - every emitted table has at least one row that
is nonempty after trimming - and conversely every parsed table with such a
row is emitted (one comma-joined row string per table row). -/
theorem claim_C9 (item1 : String) (tables : List (List (List String))) :
    (∀ t ∈ extract_tables_from_item1 item1 tables,
        ∃ rows ∈ tables, t = renderTable rows ∧
          ∃ row ∈ rows, pyStrip (renderRow row) ≠ "")
    ∧ (item1 ≠ "" →
        ∀ rows ∈ tables, (∃ row ∈ rows, pyStrip (renderRow row) ≠ "") →
          renderTable rows ∈ extract_tables_from_item1 item1 tables) := by
  constructor
  · intro t ht
    unfold extract_tables_from_item1 at ht
    split at ht
    · simp at ht
    · rcases List.mem_filter.1 ht with ⟨hmem, hcond⟩
      rcases List.mem_map.1 hmem with ⟨rows, hrows, rfl⟩
      refine ⟨rows, hrows, rfl, ?_⟩
      have hne : pyStrip (renderTable rows) ≠ "" := by simpa using hcond
      by_contra hall
      push_neg at hall
      exact hne ((renderTable_strip_empty_iff rows).2 hall)
  · intro hne rows hrows hex
    unfold extract_tables_from_item1
    rw [if_neg hne]
    refine List.mem_filter.2 ⟨List.mem_map_of_mem _ hrows, ?_⟩
    simp only [decide_eq_true_eq]
    intro heq
    rcases hex with ⟨row, hrow, hner⟩
    exact hner ((renderTable_strip_empty_iff rows).1 heq row hrow)

/-- Claim C9 witness: a table whose rows are all whitespace is discarded
while a table with a contentful row is emitted. -/
theorem claim_C9_witness :
    ∃ rows ∈ [[[" "], [""]], [["Revenue", "100"]]],
      "Revenue,100" = renderTable rows ∧ ∃ row ∈ rows, pyStrip (renderRow row) ≠ "" :=
  (claim_C9 "statements" [[[" "], [""]], [["Revenue", "100"]]]).1 "Revenue,100" (by decide)

/-- Claim C1, counterexample: "Apple Inc" fuzzy-matches the official name
"Apple Inc." at similarity about 0.947 (at least 0.85) while matching no
ticker, alias, or official name exactly, yet resolve_cik fails (no CIK, no
alias proposed) because no fuzzy tier exists in the code, and
resolve_company_name raises ResolutionError on the same input. -/
theorem claim_C1_counterexample :
    simRatioAtLeast "Apple Inc" "Apple Inc." 85 100
    ∧ alookup (load_company_tickers_json [⟨"320193", "AAPL", "Apple Inc."⟩])
        (pyStrip (lowerStr "Apple Inc")) = none
    ∧ alookup initialAliasMap (pyStrip (lowerStr "Apple Inc")) = none
    ∧ (load_company_tickers_json [⟨"320193", "AAPL", "Apple Inc."⟩]).find?
        (fun p => lowerStr p.2.title = pyStrip (lowerStr "Apple Inc")) = none
    ∧ resolve_cik 0 (load_company_tickers_json [⟨"320193", "AAPL", "Apple Inc."⟩])
        initialAliasMap (fun _ => none) "Apple Inc" ⟨[], []⟩
        = ((none, "Apple Inc"), ⟨[], []⟩)
    ∧ resolve_company_name initialAliasMap [⟨"320193", "AAPL", "Apple Inc."⟩] "Apple Inc"
        = .error "Unable to resolve name: Apple Inc" := by
  refine ⟨?_, ?_, ?_, ?_, ?_, ?_⟩ <;> first | decide | rfl

/-- Claim C1 (amended): resolution never consults string similarity: for
every input matching no ticker key and no official name exactly, resolve_cik
falls directly through to the company-search scrape; when the scrape yields
nothing, resolution fails with no CIK and the alias-learning state is left
untouched, regardless of any similarity of at least 0.85 against an official
name. -/
theorem claim_C1 (now : Nat) (cikCache : List (String × CikEntry))
    (aliasMap : List (String × String)) (scrape : String → Option String)
    (name : String) (st : ResolverState)
    (h1 : alookup cikCache (pyStrip (lowerStr name)) = none)
    (h2 : cikCache.find? (fun p => lowerStr p.2.title = pyStrip (lowerStr name)) = none) :
    resolve_cik now cikCache aliasMap scrape name st =
      (match scrape (plusJoin (stripCorpTail
          ((alookup aliasMap (pyStrip (lowerStr name))).getD name))) with
       | some txt =>
         ((some (pyZfill (pyStrip txt) 10),
             (alookup aliasMap (pyStrip (lowerStr name))).getD name),
          record_alias now aliasMap name
            ((alookup aliasMap (pyStrip (lowerStr name))).getD name) st)
       | none => ((none, (alookup aliasMap (pyStrip (lowerStr name))).getD name), st)) := by
  simp only [resolve_cik, h1, h2]

/-- Claim C1 witness: the amended theorem applied to the "Apple Inc" input
with a failing scrape. -/
theorem claim_C1_witness :
    resolve_cik 0 (load_company_tickers_json [⟨"320193", "AAPL", "Apple Inc."⟩])
        initialAliasMap (fun _ => none) "Apple Inc" ⟨[], []⟩
      = ((none, "Apple Inc"), ⟨[], []⟩) := by
  have h := claim_C1 0 (load_company_tickers_json [⟨"320193", "AAPL", "Apple Inc."⟩])
    initialAliasMap (fun _ => none) "Apple Inc" ⟨[], []⟩ (by decide) (by decide)
  rw [h]
  rfl

/-- Claim C3: the filing-URL resolver never returns a report URL that failed
its own reachability probe: the result is "Unavailable" (in which case the
derived filing status is Unavailable) or a URL on which validate_url
returned true; index candidates are scanned in descending score order; and
when the primary document and every index candidate fail validation the
result is "Unavailable". -/
theorem claim_C3 (valid : String → Bool) (cik accession primaryDoc : String)
    (page : Option (List String)) (anchors : List String) :
    ((get_actual_filing_url valid cik accession primaryDoc page = "Unavailable" ∧
        reportStatus (get_actual_filing_url valid cik accession primaryDoc page)
          = "Unavailable") ∨
      valid (get_actual_filing_url valid cik accession primaryDoc page) = true)
    ∧ List.Pairwise (fun p q : Int × String => q.1 ≤ p.1)
        (sortCandidates (candidatesOf anchors))
    ∧ ((∀ p ∈ sortCandidates (candidatesOf anchors),
          valid ("https://www.sec.gov" ++ p.2) = false) →
        valid ("https://www.sec.gov/Archives/edgar/data/" ++ cik ++ "/" ++ accession ++ "/"
          ++ primaryDoc) = false →
        get_actual_filing_url valid cik accession primaryDoc (some anchors)
          = "Unavailable") := by
  refine ⟨?_, ?_, ?_⟩
  · simp only [get_actual_filing_url]
    split
    · rename_i hcond
      exact Or.inr hcond.2.2
    · cases page with
      | none =>
        refine Or.inl ⟨rfl, ?_⟩
        rfl
      | some anc =>
        dsimp only
        rcases hf : (sortCandidates (candidatesOf anc)).find?
            (fun p => valid ("https://www.sec.gov" ++ p.2)) with _ | p
        · rw [hf]
          refine Or.inl ⟨rfl, ?_⟩
          rfl
        · rw [hf]
          exact Or.inr (by simpa using List.find?_some hf)
  · refine (pairwise_sortByB candGeB_total candGeB_trans _).imp ?_
    intro a b hab
    unfold candGeB at hab
    simp only [Bool.or_eq_true, Bool.and_eq_true, decide_eq_true_eq] at hab
    rcases hab with h | ⟨h, _⟩
    · exact le_of_lt h
    · exact le_of_eq h.symm
  · intro hall hprim
    simp only [get_actual_filing_url]
    rw [if_neg]
    · have hnone : (sortCandidates (candidatesOf anchors)).find?
          (fun p => valid ("https://www.sec.gov" ++ p.2)) = none := by
        rw [List.find?_eq_none]
        intro p hp
        simp [hall p hp]
      simp only [hnone]
    · rintro ⟨-, -, hv⟩
      rw [hprim] at hv
      exact Bool.false_ne_true hv

/-- Claim C3 witness: with a probe that rejects every URL, the resolver
returns "Unavailable" for a candidate-bearing index page. -/
theorem claim_C3_witness :
    get_actual_filing_url (fun _ => false) "320193" "000032019324000069" "doc.txt"
        (some ["a10q.htm", "cover.htm"]) = "Unavailable" :=
  (claim_C3 (fun _ => false) "320193" "000032019324000069" "doc.txt"
      (some ["a10q.htm", "cover.htm"]) ["a10q.htm", "cover.htm"]).2.2
    (by decide) (by decide)

/-- Claim C2: for every HTML input, the section extractor returns one Part
entry per "Part <numeral>" header occurrence, or exactly one synthetic
"Part I" entry spanning the whole document when no header occurs, and every
Part label has the form "Part <RomanNumeral>" regardless of the numeral
style used in the source. -/
theorem claim_C2 (html : String) :
    ((sectionExtract html).length
        = if partHeadCount html = 0 then 1 else partHeadCount html)
    ∧ (partHeadCount html = 0 → sectionExtract html = [("Part I", wordsOf html)])
    ∧ (∀ p ∈ sectionExtract html, ∃ r : String,
        p.1 = "Part " ++ r ∧ r.data ≠ [] ∧ r.data.all isRomanChar = true) := by
  unfold sectionExtract partHeadCount
  rcases hh : partHeads (wordsOf html) with _ | ⟨hd, tl⟩
  · refine ⟨?_, ?_, ?_⟩
    · simp [extract_parts, hh]
    · intro _
      simp [extract_parts, hh]
    · intro p hp
      simp only [extract_parts, hh] at hp
      rcases List.mem_singleton.1 hp with rfl
      exact ⟨"I", rfl, by decide, by decide⟩
  · have hlen : (((hd :: tl).map Prod.fst).tail ++ [(wordsOf html).length]).length
        = (hd :: tl).length := by
      simp
    refine ⟨?_, ?_, ?_⟩
    · simp only [extract_parts, hh]
      rw [List.length_map, List.length_zip, hlen, min_self]
      rw [if_neg (by simp)]
    · intro hc
      simp [hh] at hc
    · intro p hp
      simp only [extract_parts, hh] at hp
      rcases List.mem_map.1 hp with ⟨⟨⟨i, n⟩, stop⟩, hmem, rfl⟩
      refine ⟨toRoman n, rfl, ?_, toRoman_all_roman n⟩
      have hmem' : (i, n) ∈ partHeads (wordsOf html) := by
        rw [hh]
        exact (List.of_mem_zip hmem).1
      exact toRoman_ne_empty n (partHeads_pos hmem')

/-- Claim C2 witness: an HTML fragment with an Arabic "PART 1" and a Roman
"Part II" yields two Part entries, and the second label is Roman-formed. -/
theorem claim_C2_witness :
    ((sectionExtract "<b>PART 1</b> x <b>Part II</b> y").length
      = if partHeadCount "<b>PART 1</b> x <b>Part II</b> y" = 0 then 1
        else partHeadCount "<b>PART 1</b> x <b>Part II</b> y")
    ∧ (∃ r : String, ("Part II", (["Part", "II", "y"] : List String)).1 = "Part " ++ r
        ∧ r.data ≠ [] ∧ r.data.all isRomanChar = true) :=
  ⟨(claim_C2 "<b>PART 1</b> x <b>Part II</b> y").1,
   (claim_C2 "<b>PART 1</b> x <b>Part II</b> y").2.2 ("Part II", ["Part", "II", "y"])
     (by decide)⟩

/-- Claim C7: every CIK the resolver returns - from the ticker directory or
from the fallback scrape - is a string of exactly 10 characters, equal to
the source digit string left-padded with zeros, provided every source CIK is
a digit string of 1 to 10 characters. -/
theorem claim_C7 (vals : List RawTicker)
    (hvals : ∀ v ∈ vals, v.cikStr.data ≠ [] ∧ v.cikStr.data.length ≤ 10 ∧
      ∀ c ∈ v.cikStr.data, isDigitChar c = true)
    (scrape : String → Option String)
    (hscrape : ∀ q s, scrape q = some s → (pyStrip s).data ≠ [] ∧
      (pyStrip s).data.length ≤ 10 ∧ ∀ c ∈ (pyStrip s).data, isDigitChar c = true)
    (now : Nat) (aliasMap : List (String × String)) (input : String) (st : ResolverState) :
    (∀ p ∈ load_company_tickers_json vals, p.2.cik.data.length = 10 ∧
      ∃ s : String, s.data ≠ [] ∧ s.data.length ≤ 10 ∧
        p.2.cik = String.mk (List.replicate (10 - s.data.length) '0' ++ s.data))
    ∧ (∀ c name st', resolve_cik now (load_company_tickers_json vals)
          aliasMap scrape input st = ((some c, name), st') →
        c.data.length = 10 ∧ ∃ s : String, s.data ≠ [] ∧ s.data.length ≤ 10 ∧
          c = String.mk (List.replicate (10 - s.data.length) '0' ++ s.data)) := by
  have hcache : ∀ p ∈ load_company_tickers_json vals, p.2.cik.data.length = 10 ∧
      ∃ s : String, s.data ≠ [] ∧ s.data.length ≤ 10 ∧
        p.2.cik = String.mk (List.replicate (10 - s.data.length) '0' ++ s.data) := by
    intro p hp
    rcases mem_load_company_tickers_json hp with ⟨v, hv, rfl⟩
    rcases hvals v hv with ⟨hne, hle, hdig⟩
    refine ⟨pyZfill_digits_length hne hle hdig, v.cikStr, hne, hle, ?_⟩
    exact pyZfill_digits hne hle hdig
  refine ⟨hcache, ?_⟩
  intro c name st' h
  simp only [resolve_cik] at h
  rcases hl : alookup (load_company_tickers_json vals) (pyStrip (lowerStr input))
      with _ | e
  · rw [hl] at h
    rcases hfind : (load_company_tickers_json vals).find?
        (fun p => lowerStr p.2.title = pyStrip (lowerStr input)) with _ | q
    · rw [hfind] at h
      rcases hs : scrape (plusJoin (stripCorpTail
          ((alookup aliasMap (pyStrip (lowerStr input))).getD input))) with _ | txt
      · rw [hs] at h
        simp at h
      · rw [hs] at h
        simp only [Prod.mk.injEq, Option.some.injEq] at h
        obtain ⟨⟨rfl, -⟩, -⟩ := h
        rcases hscrape _ _ hs with ⟨hne, hle, hdig⟩
        refine ⟨pyZfill_digits_length hne hle hdig, pyStrip txt, hne, hle, ?_⟩
        exact pyZfill_digits hne hle hdig
    · rw [hfind] at h
      simp only [Prod.mk.injEq, Option.some.injEq] at h
      obtain ⟨⟨rfl, -⟩, -⟩ := h
      exact hcache q (List.mem_of_find?_eq_some hfind)
  · rw [hl] at h
    simp only [Prod.mk.injEq, Option.some.injEq] at h
    obtain ⟨⟨rfl, -⟩, -⟩ := h
    exact hcache (pyStrip (lowerStr input), e) (alookup_mem hl)

/-- Claim C7 witness: the ticker-directory tier returns the 10-character
zero-padded CIK for the 6-digit source value "320193". -/
theorem claim_C7_witness :
    ("0000320193" : String).data.length = 10 ∧ ∃ s : String, s.data ≠ [] ∧
      s.data.length ≤ 10 ∧
      ("0000320193" : String) = String.mk (List.replicate (10 - s.data.length) '0' ++ s.data) :=
  (claim_C7 [⟨"320193", "AAPL", "Apple Inc."⟩] (by decide) (fun _ => none)
      (by intro q s h; simp at h) 0 [] "aapl" ⟨[], []⟩).2
    "0000320193" "Apple Inc."
    ⟨[("aapl", "Apple Inc.")], [("aapl", 0)]⟩ (by decide)

/-- Claim C8: the filing locator keeps exactly the records whose form is
"10-Q" and whose filing-date string parses (malformed dates are skipped
while the rest are processed), sorts them in descending filing-date order,
derives every returned filing from such a record, and yields an empty
filings list with no error when zero records match. -/
theorem claim_C8 (g : String → String → String → String) (cik : String)
    (feed : Feed) (count : Nat) :
    (∀ k i, (k, i) ∈ select10Q feed.forms feed.filingDates ↔
        (feed.forms.get? i = some "10-Q" ∧
          (feed.filingDates.get? i >>= parseDate) = some k))
    ∧ List.Pairwise (fun p q : Nat × Nat => q.1 ≤ p.1)
        (select10Q feed.forms feed.filingDates)
    ∧ (∀ f ∈ (get_quarterly_filings g cik feed count).filings,
        ∃ i ∈ topIndices feed.forms feed.filingDates count,
          fetchFiling g cik feed i = some f ∧ feed.forms.get? i = some "10-Q")
    ∧ (select10Q feed.forms feed.filingDates = [] →
        get_quarterly_filings g cik feed count
          = ⟨[], none, some "No recent 10-Qs found"⟩) := by
  refine ⟨?_, ?_, ?_, ?_⟩
  · intro k i
    exact mem_select10Q
  · unfold select10Q
    refine (pairwise_sortByB dateIdxGeB_total dateIdxGeB_trans _).imp ?_
    intro a b hab
    unfold dateIdxGeB at hab
    simp only [Bool.or_eq_true, Bool.and_eq_true, decide_eq_true_eq] at hab
    omega
  · intro f hf
    unfold get_quarterly_filings at hf
    simp only [] at hf
    split at hf
    · simp at hf
    · rcases hm : mapOpt (fetchFiling g cik feed)
          (topIndices feed.forms feed.filingDates count) with _ | fl
      · rw [hm] at hf
        simp at hf
      · rw [hm] at hf
        simp only at hf
        rcases mapOpt_mem hm f hf with ⟨i, hi, hfi⟩
        refine ⟨i, hi, hfi, ?_⟩
        unfold topIndices at hi
        rcases List.mem_map.1 hi with ⟨⟨k, i'⟩, hki, rfl⟩
        have hmem : (k, i') ∈ select10Q feed.forms feed.filingDates :=
          List.mem_of_mem_take hki
        exact (mem_select10Q.1 hmem).1
  · intro hsel
    unfold get_quarterly_filings topIndices
    rw [hsel]
    simp

/-- Claim C8 witness: a three-entry feed with one non-10-Q record yields
filings derived only from the two 10-Q records. -/
theorem claim_C8_witness :
    ∃ i ∈ topIndices ["10-Q", "8-K", "10-Q"] ["2024-03-31", "2024-01-01", "2023-12-31"] 2,
      fetchFiling (fun _ _ _ => "Unavailable") "320193"
          ⟨["10-Q", "8-K", "10-Q"], ["a-1", "a-2", "a-3"], ["p1.htm", "p2.htm", "p3.htm"],
            ["2024-03-31", "2024-01-01", "2023-12-31"]⟩ i
        = some ⟨"2024-03-31", "Unavailable", "Unavailable"⟩
      ∧ (["10-Q", "8-K", "10-Q"] : List String).get? i = some "10-Q" :=
  (claim_C8 (fun _ _ _ => "Unavailable") "320193"
      ⟨["10-Q", "8-K", "10-Q"], ["a-1", "a-2", "a-3"], ["p1.htm", "p2.htm", "p3.htm"],
        ["2024-03-31", "2024-01-01", "2023-12-31"]⟩ 2).2.2.1
    ⟨"2024-03-31", "Unavailable", "Unavailable"⟩ (by decide)

/-- Claim C10: get_quarterly_filings returns at most count filings, the
count query parameter defaults to 2, and the selection keeps the most
recent parsed dates: every selected record's date is at least every
unselected record's date. -/
theorem claim_C10 (g : String → String → String → String) (cik : String)
    (feed : Feed) (count : Nat) :
    (get_quarterly_filings g cik feed count).filings.length ≤ count
    ∧ quarterliesDefaultCount = 2
    ∧ (∀ p ∈ (select10Q feed.forms feed.filingDates).take count,
        ∀ q ∈ (select10Q feed.forms feed.filingDates).drop count, q.1 ≤ p.1) := by
  refine ⟨?_, rfl, ?_⟩
  · unfold get_quarterly_filings
    simp only []
    split
    · simp
    · rcases hm : mapOpt (fetchFiling g cik feed)
          (topIndices feed.forms feed.filingDates count) with _ | fl
      · simp
      · dsimp only
        have hlen := mapOpt_length hm
        unfold topIndices at hlen
        rw [List.length_map] at hlen
        calc fl.length = _ := hlen
          _ ≤ count := List.length_take_le _ _
  · have hp : List.Pairwise (fun p q : Nat × Nat => dateIdxGeB p q = true)
        (select10Q feed.forms feed.filingDates) := by
      unfold select10Q
      exact pairwise_sortByB dateIdxGeB_total dateIdxGeB_trans _
    rw [← List.take_append_drop count (select10Q feed.forms feed.filingDates)] at hp
    rcases List.pairwise_append.1 hp with ⟨-, -, hcross⟩
    intro p hpt q hqd
    have := hcross p hpt q hqd
    unfold dateIdxGeB at this
    simp only [Bool.or_eq_true, Bool.and_eq_true, decide_eq_true_eq] at this
    omega

/-- Claim C10 witness: with count 1 over two parsed 10-Q records, the
selected record's date dominates the dropped one. -/
theorem claim_C10_witness :
    (get_quarterly_filings (fun _ _ _ => "Unavailable") "320193"
        ⟨["10-Q", "10-Q"], ["a-1", "a-2"], ["p1.htm", "p2.htm"],
          ["2023-12-31", "2024-03-31"]⟩ 1).filings.length ≤ 1
    ∧ (1036191, 0).1 ≤ (1036415, 1).1 :=
  ⟨(claim_C10 (fun _ _ _ => "Unavailable") "320193"
      ⟨["10-Q", "10-Q"], ["a-1", "a-2"], ["p1.htm", "p2.htm"],
        ["2023-12-31", "2024-03-31"]⟩ 1).1,
   (claim_C10 (fun _ _ _ => "Unavailable") "320193"
      ⟨["10-Q", "10-Q"], ["a-1", "a-2"], ["p1.htm", "p2.htm"],
        ["2023-12-31", "2024-03-31"]⟩ 1).2.2 (1036415, 1) (by decide) (1036191, 0)
     (by decide)⟩
